import Mathlib

/-!
Verification of the vocabulary-learning application in `src/app.py`.

Strings are embedded as `List Char`, instants as natural numbers (the code
only ever forms `now + timedelta(days)`, so an abstract day count suffices),
and the Streamlit `session_state` entries driving the games as an explicit
`GameState` record.  Randomized selections (`random.choice`, `random.sample`,
`random.shuffle`) are modelled by quantifying over every outcome the library
call can produce, stated as hypotheses (a sampled list is a permutation of a
sublist of the candidate pool, a shuffled list is a permutation of its input).
-/

open List

/-- A row of the `vocab` table as the application reads it
(`get_all_words`, src/app.py lines 84-91). -/
structure WordEntry where
  id : Nat
  word : List Char
  meanings : List (List Char)
  examples : List Char
  custom_note : List Char
  mastery_score : Nat
  next_review : Nat
deriving DecidableEq, Repr

/-- The spaced-repetition delay table `[0, 1, 3, 7, 14, 30]` from
`update_mastery` (src/app.py line 67). -/
def delayTable : List Nat := [0, 1, 3, 7, 14, 30]

/-- The value pair computed by `update_mastery` before it is persisted:
the new mastery score and the review delay in days. -/
structure MasteryResult where
  newScore : Nat
  days : Nat
deriving DecidableEq, Repr

/-- The pure core of `update_mastery` (src/app.py lines 63-70): on
`remembered` the score is `min(current_score + 1, 5)` and the delay is the
table entry at that (always in-bounds) index; otherwise both reset to 0. -/
def update_mastery (current_score : Nat) (remembered : Bool) : MasteryResult :=
  if remembered then
    let new_score := min (current_score + 1) 5
    { newScore := new_score, days := delayTable.getD new_score 0 }
  else
    { newScore := 0, days := 0 }

/-- A value written into a column of the `vocab` table. -/
inductive FieldVal where
  | str (s : List Char)
  | strList (l : List (List Char))
  | nat (n : Nat)
deriving DecidableEq, Repr

/-- The column/value pairs of the insert issued by `save_word`
(src/app.py lines 50-57); `now` abstracts `datetime.now()`. -/
def save_word_payload (word : List Char) (meanings : List (List Char))
    (examples : List Char) (note : List Char) (now : Nat) :
    List (String × FieldVal) :=
  [("word", FieldVal.str word),
   ("meanings", FieldVal.strList meanings),
   ("examples", FieldVal.str examples),
   ("custom_note", FieldVal.str note),
   ("mastery_score", FieldVal.nat 0),
   ("next_review", FieldVal.nat now)]

/-- The column/value pairs of the update issued by `update_mastery`
(src/app.py lines 75-78): the new score together with
`now + timedelta(days)`. -/
def update_mastery_payload (current_score : Nat) (remembered : Bool)
    (now : Nat) : List (String × FieldVal) :=
  let r := update_mastery current_score remembered
  [("mastery_score", FieldVal.nat r.newScore),
   ("next_review", FieldVal.nat (now + r.days))]

/-- The write operations the application issues against the `vocab`
table: the insert of `save_word`, the update of `update_mastery`, and the
row deletion of `delete_word` (src/app.py lines 47-61, 63-82, 93-100). -/
inductive VocabWrite where
  | save (word : List Char) (meanings : List (List Char))
      (examples : List Char) (note : List Char) (now : Nat)
  | update (word_id current_score : Nat) (remembered : Bool) (now : Nat)
  | delete (word_id : Nat)

/-- The column/value pairs each write operation sets (a deletion removes
the whole row and sets no columns). -/
def VocabWrite.payload : VocabWrite → List (String × FieldVal)
  | .save w m e n now => save_word_payload w m e n now
  | .update _ c r now => update_mastery_payload c r now
  | .delete _ => []

/-- The game bookkeeping kept in `st.session_state` (src/app.py lines
253-256): the active flag, score and questions-answered counters. -/
structure GameState where
  game_active : Bool
  game_score : Nat
  game_questions : Nat
deriving DecidableEq, Repr

/-- The three game modes offered on the games tab (src/app.py line 246). -/
inductive GameMode where
  | definitionMatch
  | fillInTheBlank
  | quickFire
deriving DecidableEq, Repr

/-- The session length of each mode: the questions-answered bound tested by
each answer handler (src/app.py lines 301, 361, 422 and 458). -/
def sessionLength : GameMode → Nat
  | .definitionMatch => 10
  | .fillInTheBlank => 10
  | .quickFire => 15

/-- Whether the start controls of a game mode are reachable: the whole
games tab is replaced by the "need at least 4 words" warning whenever
`len(words) < 4` (src/app.py lines 243-244), for every mode. -/
def canStartGame (_mode : GameMode) (words : List WordEntry) : Bool :=
  if words.length < 4 then false else true

/-- The counter state established by every Start Game handler
(src/app.py lines 266-268, 327-329, 381-383). -/
def startGameCounters : GameState :=
  { game_active := true, game_score := 0, game_questions := 0 }

/-- One render of the games tab acting on the session counters: behind the
pool-size gate (line 243) a start click initialises the counters, and with
fewer than 4 words nothing below the warning runs. -/
def tab2Step (words : List WordEntry) (s : GameState)
    (startClicked : Bool) : GameState :=
  if words.length < 4 then s
  else if startClicked then startGameCounters else s

/-- An answer submission as every answer handler performs it (src/app.py
lines 290-297, 350-357, 411-418, 447-454): the controls are only rendered
while `game_active`, the questions counter is incremented unconditionally
and the score counter exactly on a correct answer. -/
def submitAnswer (s : GameState) (correct : Bool) : GameState :=
  if s.game_active then
    { s with
      game_questions := s.game_questions + 1,
      game_score := if correct then s.game_score + 1 else s.game_score }
  else s

/-- Whether the post-answer branch shows the Game Over report instead of
the Next Question control: the handlers test `game_questions < length`
(src/app.py lines 301, 361, 422, 458). -/
def showsGameOver (mode : GameMode) (s : GameState) : Bool :=
  if s.game_questions < sessionLength mode then false else true

/-- The Play Again handler (src/app.py lines 315-317, 369-371, 441-443,
477-479): it clears the active flag and nothing else. -/
def playAgain (s : GameState) : GameState :=
  { s with game_active := false }

/-- The distractor candidate pool: every pool word whose id differs from
the current question's id (src/app.py lines 272, 305, 392, 430). -/
def otherWords (words : List WordEntry) (q : WordEntry) : List WordEntry :=
  words.filter (fun w => w.id != q.id)

/-- A generated Quick Fire question (src/app.py lines 386-397): the target
word, the definition shown, and the precomputed truth flag. -/
structure QuickFireQuestion where
  question_word : WordEntry
  shown_definition : List Char
  is_correct : Bool
deriving DecidableEq, Repr

/-- Quick Fire question construction (src/app.py lines 389-397): on a true
flag the shown definition is the target's `meanings[0]`, otherwise the
`meanings[0]` of the chosen other word. -/
def genQuickFire (question_word other_word : WordEntry)
    (is_correct : Bool) : QuickFireQuestion :=
  { question_word := question_word,
    shown_definition :=
      if is_correct then question_word.meanings.getD 0 []
      else other_word.meanings.getD 0 [],
    is_correct := is_correct }

/-- Whether a Quick Fire answer scores: the TRUE button scores exactly when
`is_correct` holds (src/app.py line 412) and the FALSE button exactly when
it does not (line 448). -/
def quickFireAnswerCorrect (q : QuickFireQuestion) (userAnswer : Bool) : Bool :=
  if userAnswer then q.is_correct else !q.is_correct

/-- A concrete word entry used for counterexamples and witnesses. -/
def sampleWord (i : Nat) (w : List Char) : WordEntry :=
  { id := i, word := w, meanings := [w, w, w], examples := w,
    custom_note := [], mastery_score := 0, next_review := 0 }

/-- A concrete 4-word pool with distinct ids, used for witnesses. -/
def dmPool : List WordEntry :=
  [sampleWord 1 "vex".toList, sampleWord 2 "nix".toList,
   sampleWord 3 "zag".toList, sampleWord 4 "fob".toList]

/-- ASCII upper-casing of a single character, the action of Python's
`str.upper` on the characters the app stores. -/
def upChar (c : Char) : Char :=
  match c with
  | 'a' => 'A' | 'b' => 'B' | 'c' => 'C' | 'd' => 'D' | 'e' => 'E' | 'f' => 'F'
  | 'g' => 'G' | 'h' => 'H' | 'i' => 'I' | 'j' => 'J' | 'k' => 'K' | 'l' => 'L'
  | 'm' => 'M' | 'n' => 'N' | 'o' => 'O' | 'p' => 'P' | 'q' => 'Q' | 'r' => 'R'
  | 's' => 'S' | 't' => 'T' | 'u' => 'U' | 'v' => 'V' | 'w' => 'W' | 'x' => 'X'
  | 'y' => 'Y' | 'z' => 'Z'
  | c => c

/-- ASCII lower-casing of a single character. -/
def downChar (c : Char) : Char :=
  match c with
  | 'A' => 'a' | 'B' => 'b' | 'C' => 'c' | 'D' => 'd' | 'E' => 'e' | 'F' => 'f'
  | 'G' => 'g' | 'H' => 'h' | 'I' => 'i' | 'J' => 'j' | 'K' => 'k' | 'L' => 'l'
  | 'M' => 'm' | 'N' => 'n' | 'O' => 'o' | 'P' => 'p' | 'Q' => 'q' | 'R' => 'r'
  | 'S' => 's' | 'T' => 't' | 'U' => 'u' | 'V' => 'v' | 'W' => 'w' | 'X' => 'x'
  | 'Y' => 'y' | 'Z' => 'z'
  | c => c

/-- Python's `word.upper()`. -/
def pyUpper (s : List Char) : List Char := s.map upChar

/-- Python's `word.capitalize()`: the first character upper-cased and every
following character lower-cased. -/
def pyCapitalize : List Char → List Char
  | [] => []
  | c :: cs => upChar c :: cs.map downChar

/-- The blank placeholder `"______"` (src/app.py lines 341-343). -/
def blankStr : List Char := ['_', '_', '_', '_', '_', '_']

/-- Scanner for Python's `str.replace`: walks the string left to right;
while `skip > 0` it is inside an already-replaced occurrence and drops the
character, otherwise it either replaces a match of `p` at the current
position with `r` and skips the rest of the match, or keeps the character. -/
def replGo (p r : List Char) : List Char → Nat → List Char
  | [], _ => []
  | _c :: cs, Nat.succ skip => replGo p r cs skip
  | c :: cs, 0 =>
    if p ≠ [] ∧ p <+: (c :: cs) then r ++ replGo p r cs (p.length - 1)
    else c :: replGo p r cs 0

/-- Python's `example.replace(p, r)`: every non-overlapping occurrence of
`p`, found left to right, is replaced by `r`.  The `p ≠ []` guard never
fires on app data: the add-word handler at src/app.py line 204 skips empty
input, so stored words are nonempty. -/
def pyReplace (p r s : List Char) : List Char := replGo p r s 0

/-- The blanked sentence of a Fill in the Blank question (src/app.py lines
339-343): sequential replacement of the exact, capitalized and all-caps
forms of the word by the placeholder, in that order. -/
def hiddenExample (word ex : List Char) : List Char :=
  pyReplace (pyUpper word) blankStr
    (pyReplace (pyCapitalize word) blankStr
      (pyReplace word blankStr ex))

/-- C1 counterexample: at `currentLevel = 5` and `remembered = true` the
code returns a new level of 5, not `currentLevel + 1 = 6` — line 66 clamps
the level itself with `min(current_score + 1, 5)`. -/
theorem c1_counterexample_level_five :
    (update_mastery 5 true).newScore = 5 ∧ (update_mastery 5 true).newScore ≠ 5 + 1 := by
  decide

/-- C1 (amended): for every non-negative `currentLevel`, on
`remembered = true` the scheduler returns
`newLevel = min(currentLevel + 1, 5)`, and a delay equal to the entry of
the table `[0, 1, 3, 7, 14, 30]` at index `min(newLevel, 5)`. -/
theorem c1_amended_remembered_clamps_level (currentLevel : Nat) :
    (update_mastery currentLevel true).newScore = min (currentLevel + 1) 5 ∧
    (update_mastery currentLevel true).days =
      delayTable.getD (min (update_mastery currentLevel true).newScore 5) 0 := by
  refine ⟨rfl, ?_⟩
  show delayTable.getD (min (currentLevel + 1) 5) 0 =
    delayTable.getD (min (min (currentLevel + 1) 5) 5) 0
  rw [min_assoc, min_self]

/-- C2: for every non-negative `currentLevel`, calling the scheduler with
`remembered = false` returns level 0 and a delay of 0 days (src/app.py
lines 68-70). -/
theorem c2_forgot_resets_level (currentLevel : Nat) :
    update_mastery currentLevel false = { newScore := 0, days := 0 } :=
  rfl

/-- C3 counterexample: with a pool of a single word, Fill in the Blank
cannot be started — the games tab gate at line 243 requires at least 4
words for every mode, and a start click with 1 word changes nothing. -/
theorem c3_counterexample_fill_blank_needs_four :
    canStartGame GameMode.fillInTheBlank [sampleWord 1 "serendipity".toList] = false ∧
    tab2Step [sampleWord 1 "serendipity".toList]
      { game_active := false, game_score := 0, game_questions := 0 } true =
      { game_active := false, game_score := 0, game_questions := 0 } := by
  constructor
  · decide
  · rfl

/-- C3 (amended): every game mode — Fill in the Blank included — requires a
pool of at least 4 words; a start request with an insufficient pool is
rejected with the "not enough words" warning and causes no state change. -/
theorem c3_amended_all_modes_require_four_words (mode : GameMode)
    (words : List WordEntry) (s : GameState) :
    (canStartGame mode words = true ↔ 4 ≤ words.length) ∧
    (words.length < 4 → tab2Step words s true = s) := by
  constructor
  · unfold canStartGame
    split
    · simp; omega
    · simp; omega
  · intro h
    unfold tab2Step
    rw [if_pos h]

/-- C3 amended witness: with a 4-word pool the iff yields startability, and
with a 1-word pool a start request leaves the state unchanged. -/
theorem c3_amended_witness :
    (canStartGame GameMode.fillInTheBlank
        [sampleWord 1 [], sampleWord 2 [], sampleWord 3 [], sampleWord 4 []] = true) ∧
    tab2Step [sampleWord 1 []] startGameCounters true = startGameCounters := by
  constructor
  · exact (c3_amended_all_modes_require_four_words GameMode.fillInTheBlank
      [sampleWord 1 [], sampleWord 2 [], sampleWord 3 [], sampleWord 4 []]
      startGameCounters).1.mpr (by decide)
  · exact (c3_amended_all_modes_require_four_words GameMode.fillInTheBlank
      [sampleWord 1 []] startGameCounters).2 (by decide)

/-- C4 counterexample: from the Finished session state (10 questions
answered, score 7), Play Again clears the active flag but leaves both
counters at their final values rather than resetting them to 0. -/
theorem c4_counterexample_play_again_keeps_score :
    showsGameOver GameMode.definitionMatch
      { game_active := true, game_score := 7, game_questions := 10 } = true ∧
    playAgain { game_active := true, game_score := 7, game_questions := 10 } =
      { game_active := false, game_score := 7, game_questions := 10 } ∧
    (playAgain { game_active := true, game_score := 7, game_questions := 10 }).game_score ≠ 0 := by
  decide

/-- C4 (amended): Play Again only clears the active flag, returning to
Idle with the score and questions counters still holding their final
values; both counters are reset to 0 by the next Start Game command
(src/app.py lines 315-317 versus 266-268). -/
theorem c4_amended_play_again_clears_active_only (s : GameState) :
    (playAgain s).game_active = false ∧
    (playAgain s).game_score = s.game_score ∧
    (playAgain s).game_questions = s.game_questions ∧
    startGameCounters.game_active = true ∧
    startGameCounters.game_score = 0 ∧
    startGameCounters.game_questions = 0 :=
  ⟨rfl, rfl, rfl, rfl, rfl, rfl⟩

/-- C5 counterexample: in the Finished configuration of Definition Match
(10 questions answered, still active), a further answer submission is
counted — the questions counter moves to 11 — instead of being rejected;
no `InvalidTransitionError` path exists in the code. -/
theorem c5_counterexample_submission_after_finish_counted :
    showsGameOver GameMode.definitionMatch
      { game_active := true, game_score := 7, game_questions := 10 } = true ∧
    (submitAnswer
      { game_active := true, game_score := 7, game_questions := 10 } true).game_questions = 11 ∧
    (submitAnswer
      { game_active := true, game_score := 7, game_questions := 10 } true).game_questions ≠ 10 := by
  decide

/-- C5 (amended): while a session is active every answer submission
increments the questions counter by one, and the Game Over report is shown
exactly once the counter has reached the mode's session length (10 for
Definition Match and Fill in the Blank, 15 for Quick Fire); submissions
past that point are still counted, there is no rejection. -/
theorem c5_amended_game_over_at_session_length (mode : GameMode)
    (s : GameState) (correct : Bool) (h : s.game_active = true) :
    (submitAnswer s correct).game_questions = s.game_questions + 1 ∧
    (showsGameOver mode (submitAnswer s correct) = true ↔
      sessionLength mode ≤ s.game_questions + 1) := by
  obtain ⟨a, sc, q⟩ := s
  have ha : a = true := h
  subst ha
  have hstep : submitAnswer ⟨true, sc, q⟩ correct =
      ⟨true, if correct then sc + 1 else sc, q + 1⟩ := rfl
  rw [hstep]
  constructor
  · rfl
  · unfold showsGameOver
    dsimp only
    split
    · rename_i hlt
      simp only [Bool.false_eq_true, false_iff]
      omega
    · rename_i hge
      simp only [true_iff]
      omega

/-- C5 amended witness: submitting the 10th answer of a Definition Match
session moves the counter from 9 to 10 and triggers the Game Over report. -/
theorem c5_amended_witness :
    (submitAnswer
      { game_active := true, game_score := 6, game_questions := 9 } true).game_questions = 10 ∧
    showsGameOver GameMode.definitionMatch
      (submitAnswer { game_active := true, game_score := 6, game_questions := 9 } true) = true := by
  have h := c5_amended_game_over_at_session_length GameMode.definitionMatch
    { game_active := true, game_score := 6, game_questions := 9 } true rfl
  exact ⟨h.1, h.2.mpr (by decide)⟩

/-- C6: every write the application issues against a `vocab` row sets the
`mastery_score` column exactly when it sets the `next_review` column —
the insert of `save_word` and the update of `update_mastery` set both, a
deletion sets neither; the two are never written independently. -/
theorem c6_mastery_and_review_updated_together (op : VocabWrite) :
    ("mastery_score" ∈ op.payload.map Prod.fst ↔
      "next_review" ∈ op.payload.map Prod.fst) := by
  cases op with
  | save w m e n now =>
    simp [VocabWrite.payload, save_word_payload]
  | update i c r now =>
    simp [VocabWrite.payload, update_mastery_payload]
  | delete i =>
    simp [VocabWrite.payload]

/-- C10: the mastery level never exceeds 5 — `save_word` creates every
word at level 0 (src/app.py line 55), the scheduler clamps the level with
`min(current_score + 1, 5)` on success (line 66), and both scheduler
branches return a level of at most 5. -/
theorem c10_mastery_level_never_exceeds_five :
    (∀ w m e n now, ("mastery_score", FieldVal.nat 0) ∈ save_word_payload w m e n now) ∧
    (∀ c, (update_mastery c true).newScore = min (c + 1) 5) ∧
    (∀ c r, (update_mastery c r).newScore ≤ 5) := by
  refine ⟨?_, ?_, ?_⟩
  · intro w m e n now
    simp [save_word_payload]
  · intro c
    rfl
  · intro c r
    cases r with
    | true => exact min_le_right _ _
    | false => exact Nat.zero_le _

/-- Filtering a pool of distinct-id words by "id differs from a pool
member's id" removes exactly one entry. -/
theorem length_filter_ne_id (q : WordEntry) :
    ∀ (l : List WordEntry), (l.map WordEntry.id).Nodup → q ∈ l →
      (l.filter (fun w => w.id != q.id)).length + 1 = l.length := by
  intro l
  induction l with
  | nil => intro _ h; cases h
  | cons b bs ih =>
    intro hnd hm
    rw [List.map_cons, List.nodup_cons] at hnd
    rcases List.mem_cons.mp hm with hm | hm
    · subst hm
      have hself : (q.id != q.id) = false := by simp
      have hrest : bs.filter (fun w => w.id != q.id) = bs := by
        apply List.filter_eq_self.mpr
        intro w hw
        have : w.id ≠ q.id := by
          intro he
          exact hnd.1 (he ▸ List.mem_map_of_mem WordEntry.id hw)
        simpa using this
      simp [List.filter_cons, hself, hrest]
    · have hne : (b.id != q.id) = true := by
        have : b.id ≠ q.id := by
          intro he
          exact hnd.1 (he.symm ▸ List.mem_map_of_mem WordEntry.id hm)
        simpa using this
      have := ih hnd.2 hm
      simp only [List.filter_cons, hne, if_pos, List.length_cons]
      omega

/-- C7: with a pool of exactly 4 distinct-id words, every Definition Match
question presents exactly 4 options — the answer word plus 3 distractors
sampled from the pool with the answer's id excluded — and no two options
share an id; `wrong` ranges over every possible `random.sample` result and
`options` over every possible `random.shuffle` result
(src/app.py lines 271-277). -/
theorem c7_definition_match_four_options
    (words : List WordEntry) (q : WordEntry) (wrong options : List WordEntry)
    (hlen : words.length = 4)
    (hids : (words.map WordEntry.id).Nodup)
    (hq : q ∈ words)
    (hsample : wrong <+~ otherWords words q)
    (hwlen : wrong.length = min 3 (otherWords words q).length)
    (hshuffle : options ~ q :: wrong) :
    options.length = 4 ∧ q ∈ options ∧ (options.map WordEntry.id).Nodup := by
  have hother : (otherWords words q).length = 3 := by
    have := length_filter_ne_id q words hids hq
    rw [hlen] at this
    unfold otherWords
    omega
  have hw3 : wrong.length = 3 := by rw [hwlen, hother, min_self]
  refine ⟨?_, ?_, ?_⟩
  · rw [hshuffle.length_eq, List.length_cons, hw3]
  · exact hshuffle.mem_iff.mpr (List.mem_cons_self q wrong)
  · obtain ⟨l, hlp, hlsub⟩ := hsample
    have hothersub : (otherWords words q).map WordEntry.id <+ words.map WordEntry.id :=
      (List.filter_sublist words).map WordEntry.id
    have hothernd : ((otherWords words q).map WordEntry.id).Nodup :=
      hids.sublist hothersub
    have hlnd : (l.map WordEntry.id).Nodup :=
      hothernd.sublist (hlsub.map WordEntry.id)
    have hwnd : (wrong.map WordEntry.id).Nodup := (hlp.map WordEntry.id).nodup hlnd
    have hqnot : q.id ∉ wrong.map WordEntry.id := by
      intro hmem
      obtain ⟨w, hw, hwe⟩ := List.mem_map.mp hmem
      have hwo : w ∈ otherWords words q := Subperm.subset ⟨l, hlp, hlsub⟩ hw
      rw [otherWords, List.mem_filter] at hwo
      have : w.id ≠ q.id := by simpa using hwo.2
      exact this hwe
    have hcons : ((q :: wrong).map WordEntry.id).Nodup := by
      rw [List.map_cons, List.nodup_cons]
      exact ⟨hqnot, hwnd⟩
    exact ((hshuffle.map WordEntry.id).symm).nodup hcons

/-- C7 witness: the concrete 4-word pool, answer word id 1, the full
distractor pool as the sample and the unshuffled option list. -/
theorem c7_witness :
    (sampleWord 1 "vex".toList :: otherWords dmPool (sampleWord 1 "vex".toList)).length = 4 ∧
    sampleWord 1 "vex".toList ∈
      (sampleWord 1 "vex".toList :: otherWords dmPool (sampleWord 1 "vex".toList)) ∧
    ((sampleWord 1 "vex".toList :: otherWords dmPool (sampleWord 1 "vex".toList)).map
      WordEntry.id).Nodup := by
  have h := c7_definition_match_four_options dmPool (sampleWord 1 "vex".toList)
    (otherWords dmPool (sampleWord 1 "vex".toList))
    (sampleWord 1 "vex".toList :: otherWords dmPool (sampleWord 1 "vex".toList))
    (by decide) (by decide) (by decide)
    (Subperm.refl _) (by decide) (Perm.refl _)
  exact h

/-- C9: for every generated Quick Fire question, the stored flag is the
drawn one; a true flag shows the target word's own first (formal) meaning,
a false flag shows the first meaning of a word with a different id; and a
user's TRUE/FALSE answer scores exactly when it equals the flag
(src/app.py lines 386-397, 410-418, 446-454). -/
theorem c9_quick_fire_definition_and_scoring
    (words : List WordEntry) (question_word other_word : WordEntry)
    (is_correct userAnswer : Bool)
    (hother : other_word ∈ otherWords words question_word) :
    ((genQuickFire question_word other_word is_correct).is_correct = is_correct) ∧
    (is_correct = true →
      (genQuickFire question_word other_word is_correct).shown_definition =
        question_word.meanings.getD 0 []) ∧
    (is_correct = false →
      (genQuickFire question_word other_word is_correct).shown_definition =
        other_word.meanings.getD 0 [] ∧ other_word.id ≠ question_word.id) ∧
    (quickFireAnswerCorrect (genQuickFire question_word other_word is_correct) userAnswer =
      (userAnswer == is_correct)) := by
  refine ⟨rfl, ?_, ?_, ?_⟩
  · intro h; subst h; rfl
  · intro h; subst h
    refine ⟨rfl, ?_⟩
    rw [otherWords, List.mem_filter] at hother
    simpa using hother.2
  · cases userAnswer <;> cases is_correct <;> rfl

/-- C9 witness: in the concrete pool, a false-flag question about word 1
shows word 2's first meaning, the ids differ, and answering FALSE scores. -/
theorem c9_witness :
    (genQuickFire (sampleWord 1 "vex".toList) (sampleWord 2 "nix".toList) false).shown_definition =
      (sampleWord 2 "nix".toList).meanings.getD 0 [] ∧
    (sampleWord 2 "nix".toList).id ≠ (sampleWord 1 "vex".toList).id ∧
    quickFireAnswerCorrect
      (genQuickFire (sampleWord 1 "vex".toList) (sampleWord 2 "nix".toList) false) false = true := by
  have h := c9_quick_fire_definition_and_scoring dmPool
    (sampleWord 1 "vex".toList) (sampleWord 2 "nix".toList) false false (by decide)
  refine ⟨(h.2.2.1 rfl).1, (h.2.2.1 rfl).2, ?_⟩
  rw [h.2.2.2]
  rfl

/-- Upper-casing never produces an underscore. -/
theorem upChar_ne_underscore (c : Char) (h : c ≠ '_') : upChar c ≠ '_' := by
  unfold upChar
  split
  all_goals first | decide | exact h

/-- Lower-casing never produces an underscore. -/
theorem downChar_ne_underscore (c : Char) (h : c ≠ '_') : downChar c ≠ '_' := by
  unfold downChar
  split
  all_goals first | decide | exact h

/-- Every character of the blank placeholder is an underscore. -/
theorem mem_blankStr {a : Char} (h : a ∈ blankStr) : a = '_' := by
  simp [blankStr] at h
  exact h

/-- A positive skip count just drops that many characters before the
scanner resumes. -/
theorem replGo_skip (p r : List Char) : ∀ (s : List Char) (k : Nat),
    replGo p r s k = replGo p r (s.drop k) 0 := by
  intro s
  induction s with
  | nil => intro k; simp [replGo]
  | cons c cs ih =>
    intro k
    cases k with
    | zero => simp
    | succ k => rw [replGo, List.drop_succ_cons, ih]

/-- Unfolding equation of `pyReplace` on a nonempty string. -/
theorem pyReplace_cons (p r : List Char) (c : Char) (cs : List Char) :
    pyReplace p r (c :: cs) =
      if p ≠ [] ∧ p <+: (c :: cs) then r ++ pyReplace p r (cs.drop (p.length - 1))
      else c :: pyReplace p r cs := by
  unfold pyReplace
  rw [replGo]
  split
  · rw [replGo_skip]
  · rfl

/-- A nonempty pattern sharing no character with the replacement text is a
prefix of a replaced string only if it was a prefix of the original: the
replacement emits either characters of `r` or characters of the input. -/
theorem pyReplace_prefix_inv (p r : List Char) (hr : r ≠ []) :
    ∀ (s q : List Char), q ≠ [] → (∀ a ∈ q, a ∉ r) →
      q <+: pyReplace p r s → q <+: s := by
  intro s
  induction s with
  | nil =>
    intro q hq _ hpre
    rw [show pyReplace p r [] = [] from rfl] at hpre
    obtain ⟨t, ht⟩ := hpre
    exact absurd (List.append_eq_nil.mp ht).1 hq
  | cons c cs ih =>
    intro q hq hdisj hpre
    rw [pyReplace_cons] at hpre
    split at hpre
    · obtain ⟨a, q', rfl⟩ := List.exists_cons_of_ne_nil hq
      obtain ⟨b, r', rfl⟩ := List.exists_cons_of_ne_nil hr
      rw [List.cons_append] at hpre
      have hab := ( List.cons_prefix_cons.mp hpre).1
      exact absurd (hab ▸ List.mem_cons_self b r')
        (hdisj a (List.mem_cons_self a q'))
    · obtain ⟨a, q', rfl⟩ := List.exists_cons_of_ne_nil hq
      have hab := List.cons_prefix_cons.mp hpre
      rcases hab with ⟨rfl, hq'⟩
      by_cases hq'e : q' = []
      · subst hq'e
        exact List.cons_prefix_cons.mpr ⟨rfl, List.nil_prefix⟩
      · have h2 := ih q' hq'e
          (fun x hx => hdisj x (List.mem_cons_of_mem _ hx)) hq'
        exact List.cons_prefix_cons.mpr ⟨rfl, h2⟩

/-- A nonempty word sharing no character with `r` that occurs inside
`r ++ x` occurs inside `x`. -/
theorem sub_append_right (q x : List Char) (hq : q ≠ []) :
    ∀ (r : List Char), (∀ a ∈ q, a ∉ r) → q <:+: r ++ x → q <:+: x := by
  intro r
  induction r with
  | nil => intro _ h; simpa using h
  | cons b r' ih =>
    intro hdisj h
    rw [List.cons_append] at h
    rcases List.infix_cons_iff.mp h with hpre | hsub
    · obtain ⟨a, q', rfl⟩ := List.exists_cons_of_ne_nil hq
      have hab := ( List.cons_prefix_cons.mp hpre).1
      exact absurd (hab ▸ List.mem_cons_self b r')
        (hdisj a (List.mem_cons_self a q'))
    · exact ih (fun a ha hm => hdisj a ha (List.mem_cons_of_mem b hm)) hsub

/-- After `pyReplace p r s`, no occurrence of `p` remains, provided `p` is
nonempty and shares no character with `r`: the scan replaces every
occurrence it meets, and remnants between replacements are too short to
contain one. -/
theorem pyReplace_not_sub (p r : List Char) (hp : p ≠ []) (hr : r ≠ [])
    (hdisj : ∀ a ∈ p, a ∉ r) : ∀ (s : List Char), ¬ p <:+: pyReplace p r s := by
  have H : ∀ (n : Nat) (s : List Char), s.length ≤ n → ¬ p <:+: pyReplace p r s := by
    intro n
    induction n with
    | zero =>
      intro s hs
      have hnil : s = [] := List.length_eq_zero.mp (Nat.le_zero.mp hs)
      subst hnil
      rw [show pyReplace p r [] = [] from rfl]
      intro h
      obtain ⟨u, v, huv⟩ := h
      have h1 := List.append_eq_nil.mp huv
      exact hp (List.append_eq_nil.mp h1.1).2
    | succ n ih =>
      intro s hs
      match s with
      | [] =>
        rw [show pyReplace p r [] = [] from rfl]
        intro h
        obtain ⟨u, v, huv⟩ := h
        have h1 := List.append_eq_nil.mp huv
        exact hp (List.append_eq_nil.mp h1.1).2
      | c :: cs =>
        have hcs : cs.length ≤ n := by
          rw [List.length_cons] at hs
          omega
        rw [pyReplace_cons]
        split
        · intro h
          have h2 := sub_append_right p _ hp r hdisj h
          exact ih (cs.drop (p.length - 1))
            (by rw [List.length_drop]; omega) h2
        · rename_i hcond
          intro h
          rcases List.infix_cons_iff.mp h with hpre | hsub
          · have hpre2 : p <+: pyReplace p r (c :: cs) := by
              rw [pyReplace_cons, if_neg hcond]
              exact hpre
            have h3 := pyReplace_prefix_inv p r hr (c :: cs) p hp hdisj hpre2
            exact hcond ⟨hp, h3⟩
          · exact ih cs hcs hsub
  intro s
  exact H s.length s le_rfl

/-- Replacing any pattern cannot create a new occurrence of a nonempty
word that shares no character with the replacement text. -/
theorem pyReplace_preserves_not_sub (q r : List Char) (hq : q ≠ []) (hr : r ≠ [])
    (hdisj : ∀ a ∈ q, a ∉ r) :
    ∀ (p s : List Char), ¬ q <:+: s → ¬ q <:+: pyReplace p r s := by
  intro p
  have H : ∀ (n : Nat) (s : List Char), s.length ≤ n →
      ¬ q <:+: s → ¬ q <:+: pyReplace p r s := by
    intro n
    induction n with
    | zero =>
      intro s hs hns
      have hnil : s = [] := List.length_eq_zero.mp (Nat.le_zero.mp hs)
      subst hnil
      rw [show pyReplace p r [] = [] from rfl]
      exact hns
    | succ n ih =>
      intro s hs hns
      match s with
      | [] =>
        rw [show pyReplace p r [] = [] from rfl]
        exact hns
      | c :: cs =>
        have hcs : cs.length ≤ n := by
          rw [List.length_cons] at hs
          omega
        have hnscs : ¬ q <:+: cs := fun hh => hns (List.infix_cons hh)
        rw [pyReplace_cons]
        split
        · intro h
          have h2 := sub_append_right q _ hq r hdisj h
          have hdropn : ¬ q <:+: cs.drop (p.length - 1) := by
            intro hh
            exact hnscs (hh.trans (List.drop_suffix _ _).isInfix)
          exact ih (cs.drop (p.length - 1))
            (by rw [List.length_drop]; omega) hdropn h2
        · rename_i hcond
          intro h
          rcases List.infix_cons_iff.mp h with hpre | hsub
          · have hpre2 : q <+: pyReplace p r (c :: cs) := by
              rw [pyReplace_cons, if_neg hcond]
              exact hpre
            have h3 := pyReplace_prefix_inv p r hr (c :: cs) q hq hdisj hpre2
            exact hns h3.isInfix
          · exact ih cs hcs hnscs hsub
  intro s
  exact H s.length s le_rfl

/-- C8 counterexample: for the word `"_a"` and example `"s_Aa"` the code
produces `"s______a"` — replacing the all-caps form `"_A"` manufactures a
fresh occurrence of the exact form `"_a"` out of the placeholder's final
underscore and the following letter, so not every occurrence of the word's
three case forms is replaced by the blank placeholder. -/
theorem c8_counterexample_underscore_word :
    hiddenExample "_a".toList "s_Aa".toList = "s______a".toList ∧
    "_a".toList <:+: hiddenExample "_a".toList "s_Aa".toList := by
  decide

/-- C8 (amended): for every nonempty word containing no underscore — every
word the app stores, in particular — the blanked sentence contains no
occurrence of the word's exact, capitalized or all-caps form; in
particular for word `"cat"` and example `"The CAT sat"` the blanked
sentence is `"The ______ sat"`. -/
theorem c8_amended_blanking_removes_all_forms (word ex : List Char)
    (hw : word ≠ []) (hund : ∀ a ∈ word, a ≠ '_') :
    ¬ word <:+: hiddenExample word ex ∧
    ¬ pyCapitalize word <:+: hiddenExample word ex ∧
    ¬ pyUpper word <:+: hiddenExample word ex := by
  obtain ⟨c0, cs0, rfl⟩ := List.exists_cons_of_ne_nil hw
  have hdisj : ∀ (q : List Char), (∀ a ∈ q, a ≠ '_') → ∀ a ∈ q, a ∉ blankStr :=
    fun q hq a ha hmem => hq a ha (mem_blankStr hmem)
  have hbne : blankStr ≠ [] := by decide
  have hcap_ne : pyCapitalize (c0 :: cs0) ≠ [] := by simp [pyCapitalize]
  have hup_ne : pyUpper (c0 :: cs0) ≠ [] := by simp [pyUpper]
  have hund_cap : ∀ a ∈ pyCapitalize (c0 :: cs0), a ≠ '_' := by
    intro a ha
    simp only [pyCapitalize] at ha
    rcases List.mem_cons.mp ha with h | h
    · subst h
      exact upChar_ne_underscore c0 (hund c0 (List.mem_cons_self c0 cs0))
    · obtain ⟨b, hb, rfl⟩ := List.mem_map.mp h
      exact downChar_ne_underscore b (hund b (List.mem_cons_of_mem c0 hb))
  have hund_up : ∀ a ∈ pyUpper (c0 :: cs0), a ≠ '_' := by
    intro a ha
    obtain ⟨b, hb, rfl⟩ := List.mem_map.mp ha
    exact upChar_ne_underscore b (hund b hb)
  refine ⟨?_, ?_, ?_⟩
  · have base := pyReplace_not_sub (c0 :: cs0) blankStr (by simp) hbne
      (hdisj _ hund) ex
    have step1 := pyReplace_preserves_not_sub (c0 :: cs0) blankStr (by simp) hbne
      (hdisj _ hund) (pyCapitalize (c0 :: cs0)) _ base
    exact pyReplace_preserves_not_sub (c0 :: cs0) blankStr (by simp) hbne
      (hdisj _ hund) (pyUpper (c0 :: cs0)) _ step1
  · have base := pyReplace_not_sub (pyCapitalize (c0 :: cs0)) blankStr hcap_ne hbne
      (hdisj _ hund_cap) (pyReplace (c0 :: cs0) blankStr ex)
    exact pyReplace_preserves_not_sub (pyCapitalize (c0 :: cs0)) blankStr hcap_ne hbne
      (hdisj _ hund_cap) (pyUpper (c0 :: cs0)) _ base
  · exact pyReplace_not_sub (pyUpper (c0 :: cs0)) blankStr hup_ne hbne
      (hdisj _ hund_up) _

/-- C8 amended witness: the `"cat"` / `"The CAT sat"` instance — the
blanked sentence is `"The ______ sat"` and contains none of `"cat"`,
`"Cat"`, `"CAT"`. -/
theorem c8_amended_witness :
    hiddenExample "cat".toList "The CAT sat".toList = "The ______ sat".toList ∧
    ¬ "cat".toList <:+: hiddenExample "cat".toList "The CAT sat".toList ∧
    ¬ pyCapitalize "cat".toList <:+: hiddenExample "cat".toList "The CAT sat".toList ∧
    ¬ pyUpper "cat".toList <:+: hiddenExample "cat".toList "The CAT sat".toList := by
  have h := c8_amended_blanking_removes_all_forms "cat".toList "The CAT sat".toList
    (by decide) (by decide)
  exact ⟨by decide, h.1, h.2.1, h.2.2⟩
